import Mathlib

/-!
Shallow embedding of the election-portal tally core (src/models.py).

The SQLite database state is modelled as explicit lists of rows, in table
order.  Queries are modelled as filters/maps over those lists; `SELECT
DISTINCT` keeps the first occurrence in table order, `ORDER BY` is a stable
insertion sort (Python's `list.sort` is stable, and row order for equal keys
is deterministic for a fixed stored state), `fetchone` is `List.find?`,
and Python's insertion-ordered `dict` is an association list where a new
key is appended at the end.
-/

/-- Row of the `candidates` table: id, name, category (= position code). -/
structure Candidate where
  id : Nat
  name : String
  category : String
deriving Repr, DecidableEq

/-- Row of the `ranked_votes` table. -/
structure RankedVote where
  voter : String
  position : String
  candidate : Nat
  rank : Nat
deriving Repr, DecidableEq

/-- Row of the `election_positions` table. -/
structure Position where
  position_code : String
  position_name : String
  rank_order : Nat
deriving Repr, DecidableEq

/-- Row of the `election_winners` table. -/
structure WinnerRow where
  position_code : String
  candidate_id : Nat
  candidate_name : String
  vote_count : Nat
deriving Repr, DecidableEq

/-- The database state read and written by the tally functions. -/
structure State where
  candidates : List Candidate
  rankedVotes : List RankedVote
  positions : List Position
  election_winners : List WinnerRow
deriving Repr, DecidableEq

/-- One entry of a tally's candidate result list (`{'id', 'name', 'votes'}`). -/
structure CandResult where
  id : Nat
  name : String
  votes : Nat
deriving Repr, DecidableEq

/-- The dict returned by `compute_position_winner`; `position_name` is filled
in later by `compute_all_results`. -/
structure TallyResult where
  position_code : String
  position_name : String
  winner : Option CandResult
  results : List CandResult
  total_voters : Nat
  exhausted_votes : Nat
deriving Repr, DecidableEq

/-- `CATEGORIES` from models.py. -/
def CATEGORIES : List String :=
  ["VP", "GS", "JS1", "JS2", "EXEC_TECH", "EXEC_DESIGN", "EXEC_PR"]

/-- Generic stable insertion: `x` goes in front of the first element it is
`le`-below-or-equal to; equal keys keep their original relative order. -/
def insOn (le : α → α → Bool) (x : α) : List α → List α
  | [] => [x]
  | y :: ys => if le x y then x :: y :: ys else y :: insOn le x ys

/-- Generic stable insertion sort (model of Python's stable `list.sort` and
of `ORDER BY` with a deterministic tie order). -/
def sortOn (le : α → α → Bool) (l : List α) : List α :=
  l.foldr (insOn le) []

/-- `SELECT DISTINCT`: keep the first occurrence of each value, in order. -/
def dedupFirst (l : List String) : List String :=
  l.foldl (fun acc x => if x ∈ acc then acc else acc ++ [x]) []

/-- `SELECT DISTINCT voter_hash FROM ranked_votes WHERE position_code = ?`. -/
def votersOf (votes : List RankedVote) (pos : String) : List String :=
  dedupFirst ((votes.filter (fun r => decide (r.position = pos))).map (·.voter))

/-- `SELECT candidate_id FROM ranked_votes WHERE voter_hash = ? AND
position_code = ? ORDER BY preference_rank`. -/
def voterPreferences (votes : List RankedVote) (pos v : String) : List Nat :=
  (sortOn (fun a b => a.rank ≤ b.rank)
    (votes.filter (fun r => decide (r.voter = v ∧ r.position = pos)))).map (·.candidate)

/-- The per-ballot scan: first ranked candidate id not in the excluded set. -/
def firstNonExcluded (excl : List Nat) : List Nat → Option Nat
  | [] => none
  | c :: cs => if c ∈ excl then firstNonExcluded excl cs else some c

/-- `vote_counts[cand_id] = vote_counts.get(cand_id, 0) + 1` on an
insertion-ordered dict: bump an existing key in place, else append. -/
def bump (counts : List (Nat × Nat)) (c : Nat) : List (Nat × Nat) :=
  if counts.any (fun p => decide (p.1 = c)) then
    counts.map (fun p => if p.1 = c then (p.1, p.2 + 1) else p)
  else counts ++ [(c, 1)]

/-- The ballot-processing loop of `compute_position_winner`, iterating the
remaining voters over the accumulated `vote_counts` dict. -/
def tallyLoop (votes : List RankedVote) (pos : String) (excl : List Nat)
    (counts : List (Nat × Nat)) : List String → List (Nat × Nat)
  | [] => counts
  | v :: vs =>
    tallyLoop votes pos excl
      (match firstNonExcluded excl (voterPreferences votes pos v) with
        | some c => bump counts c
        | none => counts) vs

/-- The ballot-processing loop started on the empty dict: one effective vote
per voter to their first non-excluded preference. -/
def tallyVotes (votes : List RankedVote) (pos : String) (excl : List Nat)
    (voters : List String) : List (Nat × Nat) :=
  tallyLoop votes pos excl [] voters

/-- `vote_counts.get(c, 0)`: the value stored under key `c`, 0 if absent. -/
def countOf (counts : List (Nat × Nat)) (c : Nat) : Nat :=
  match counts.find? (fun p => decide (p.1 = c)) with
  | some p => p.2
  | none => 0

/-- The keys of the association list, in insertion order. -/
def keysOf (counts : List (Nat × Nat)) : List Nat :=
  counts.map (·.1)

/-- `sum(vote_counts.values())`. -/
def sumCounts (counts : List (Nat × Nat)) : Nat :=
  (counts.map (·.2)).sum

/-- Building `results` from `vote_counts`: look each key up in `candidates`
(`fetchone`); keys with no matching candidate row are silently dropped. -/
def resultsFromCounts (cands : List Candidate) (counts : List (Nat × Nat)) :
    List CandResult :=
  counts.filterMap (fun p =>
    (cands.find? (fun cand => decide (cand.id = p.1))).map
      (fun cand => { id := cand.id, name := cand.name, votes := p.2 }))

/-- The zero-vote fill loop: append every candidate of the category that is
neither already in the list nor excluded, with 0 votes. -/
def addZeroVotes (cands : List Candidate) (pos : String) (excl : List Nat)
    (base : List CandResult) : List CandResult :=
  base ++ (((cands.filter (fun c => decide (c.category = pos))).filter
    (fun c => decide (¬ base.any (fun r => decide (r.id = c.id)) ∧ c.id ∉ excl))).map
      (fun c => { id := c.id, name := c.name, votes := 0 }))

/-- The `results` list built by `compute_position_winner`: counted
candidates, then the zero-vote fill, sorted by votes descending
(`results.sort(key=..., reverse=True)`, a stable sort). -/
def resultsList (cands : List Candidate) (votes : List RankedVote)
    (pos : String) (excl : List Nat) : List CandResult :=
  sortOn (fun a b => b.votes ≤ a.votes)
    (addZeroVotes cands pos excl
      (resultsFromCounts cands (tallyVotes votes pos excl (votersOf votes pos))))

/-- Body of `compute_position_winner`, over the two tables it reads. -/
def computeWinnerOn (cands : List Candidate) (votes : List RankedVote)
    (pos : String) (excl : List Nat) : TallyResult :=
  { position_code := pos
    position_name := ""
    winner := (resultsList cands votes pos excl).head?
    results := resultsList cands votes pos excl
    total_voters := (votersOf votes pos).length
    exhausted_votes := (votersOf votes pos).length -
      sumCounts (tallyVotes votes pos excl (votersOf votes pos)) }

/-- `compute_position_winner(position_code, excluded_candidate_ids)` from
models.py, as a pure function of the database state. -/
def compute_position_winner (st : State) (pos : String) (excl : List Nat) :
    TallyResult :=
  computeWinnerOn st.candidates st.rankedVotes pos excl

/-- The exclusion-set update after one position: add the winner's id, if any
(`excluded_candidates.add(result['winner']['id'])`). -/
def exclStep (st : State) (excl : List Nat) (p : Position) : List Nat :=
  match (compute_position_winner st p.position_code excl).winner with
  | some w => excl ++ [w.id]
  | none => excl

/-- `SELECT position_code, position_name FROM election_positions ORDER BY
rank_order`. -/
def positionsByRank (st : State) : List Position :=
  sortOn (fun a b => a.rank_order ≤ b.rank_order) st.positions

/-- The orchestrator loop of `compute_all_results`. -/
def computeAllAux (st : State) : List Position → List Nat → List TallyResult
  | [], _ => []
  | p :: ps, excl =>
    { compute_position_winner st p.position_code excl with
        position_name := p.position_name } ::
      computeAllAux st ps (exclStep st excl p)

/-- `compute_all_results()` from models.py. -/
def compute_all_results (st : State) : List TallyResult :=
  computeAllAux st (positionsByRank st) []

/-- The exclusion set handed to each successive position, in order. -/
def exclSeq (st : State) : List Position → List Nat → List (List Nat)
  | [], _ => []
  | p :: ps, excl => excl :: exclSeq st ps (exclStep st excl p)

/-- The rows `save_election_winners` inserts: one per result with a winner. -/
def winnerRowsOf (results : List TallyResult) : List WinnerRow :=
  results.filterMap (fun r => r.winner.map (fun w =>
    { position_code := r.position_code, candidate_id := w.id,
      candidate_name := w.name, vote_count := w.votes }))

/-- `save_election_winners(results)`: delete all rows, then insert one row
per result that has a winner. -/
def save_election_winners (st : State) (results : List TallyResult) : State :=
  { st with election_winners := winnerRowsOf results }

/-- Joined row returned by `get_election_winners` (`ew.*` plus the
position's name and rank). -/
structure WinnerView where
  position_code : String
  candidate_id : Nat
  candidate_name : String
  vote_count : Nat
  position_name : String
  rank_order : Nat
deriving Repr, DecidableEq

/-- `get_election_winners()`: join winners with positions on the position
code, ordered by the position's rank_order. -/
def get_election_winners (st : State) : List WinnerView :=
  sortOn (fun a b => a.rank_order ≤ b.rank_order)
    (st.election_winners.flatMap (fun ew =>
      (st.positions.filter (fun p => decide (p.position_code = ew.position_code))).map
        (fun p =>
          { position_code := ew.position_code, candidate_id := ew.candidate_id,
            candidate_name := ew.candidate_name, vote_count := ew.vote_count,
            position_name := p.position_name, rank_order := p.rank_order })))

/-- The rows inserted for one ballot: candidate ids with preference ranks
counted up from `rank0` (`enumerate(ranked_candidate_ids, start=1)`). -/
def ballotRows (v pos : String) : Nat → List Nat → List RankedVote
  | _, [] => []
  | rank0, cid :: rest =>
    { voter := v, position := pos, candidate := cid, rank := rank0 } ::
      ballotRows v pos (rank0 + 1) rest

/-- `record_ranked_votes(voter_hash, position_code, ranked_candidate_ids)`
from models.py, returning the new state with (success, message).

Modelled from the spec: `schema.sql` is not among the sources, so the table
constraints behind the `IntegrityError` branch are unknown; the insert loop
is modelled as always succeeding, which matches the spec's statement that
at most one ballot per (voter, position) is enforced by the pre-checks. -/
def record_ranked_votes (st : State) (v pos : String) (ids : List Nat) :
    State × Bool × String :=
  if pos ∉ CATEGORIES then (st, false, "Invalid position")
  else if st.rankedVotes.any (fun r => decide (r.voter = v ∧ r.position = pos)) then
    (st, false, "You have already voted for this position")
  else
    match ids.find? (fun cid =>
        ! st.candidates.any (fun c => decide (c.id = cid ∧ c.category = pos))) with
    | some cid => (st, false, "Invalid candidate ID: " ++ toString cid)
    | none =>
      ({ st with rankedVotes := st.rankedVotes ++ ballotRows v pos 1 ids },
        true, "Votes recorded successfully")

/-- A stored state holds at most one ballot per (voter, position): the rows
for each pair carry consecutive preference ranks 1..n in order. -/
def oneBallotInv (st : State) : Prop :=
  ∀ v pos,
    (st.rankedVotes.filter (fun r => decide (r.voter = v ∧ r.position = pos))).map
        (·.rank) =
      List.range' 1
        (st.rankedVotes.filter (fun r => decide (r.voter = v ∧ r.position = pos))).length

/-! ### Lemmas about the stable insertion sort -/

theorem perm_insOn (le : α → α → Bool) (x : α) (l : List α) :
    List.Perm (insOn le x l) (x :: l) := by
  induction l with
  | nil => simp [insOn]
  | cons y ys ih =>
    simp only [insOn]
    split
    · exact List.Perm.refl _
    · exact (ih.cons y).trans (List.Perm.swap x y ys)

theorem perm_sortOn (le : α → α → Bool) (l : List α) :
    List.Perm (sortOn le l) l := by
  induction l with
  | nil => exact List.Perm.refl _
  | cons x xs ih => exact (perm_insOn le x (sortOn le xs)).trans (ih.cons x)

theorem mem_sortOn (le : α → α → Bool) (a : α) (l : List α) :
    a ∈ sortOn le l ↔ a ∈ l :=
  (perm_sortOn le l).mem_iff

theorem pairwise_insOn (le : α → α → Bool)
    (htot : ∀ a b, le a b = true ∨ le b a = true)
    (htr : ∀ a b c, le a b = true → le b c = true → le a c = true)
    (x : α) {l : List α} (hl : l.Pairwise (fun a b => le a b = true)) :
    (insOn le x l).Pairwise (fun a b => le a b = true) := by
  induction l with
  | nil => simp [insOn]
  | cons y ys ih =>
    rcases List.pairwise_cons.1 hl with ⟨hy, hys⟩
    simp only [insOn]
    split
    case isTrue h =>
      refine List.pairwise_cons.2 ⟨?_, hl⟩
      intro z hz
      rcases List.mem_cons.1 hz with rfl | hz'
      · exact h
      · exact htr x y z h (hy z hz')
    case isFalse h =>
      refine List.pairwise_cons.2 ⟨?_, ih hys⟩
      intro z hz
      have hz1 : z ∈ x :: ys := (perm_insOn le x ys).mem_iff.1 hz
      rcases List.mem_cons.1 hz1 with h0 | hz2
      · rw [h0]
        rcases htot x y with h1 | h1
        · exact absurd h1 h
        · exact h1
      · exact hy z hz2

theorem pairwise_sortOn (le : α → α → Bool)
    (htot : ∀ a b, le a b = true ∨ le b a = true)
    (htr : ∀ a b c, le a b = true → le b c = true → le a c = true)
    (l : List α) :
    (sortOn le l).Pairwise (fun a b => le a b = true) := by
  induction l with
  | nil => simp [sortOn]
  | cons x xs ih => exact pairwise_insOn le htot htr x ih

/-! ### Lemmas about the insertion-ordered counts dict -/

theorem any_key_iff (counts : List (Nat × Nat)) (c : Nat) :
    counts.any (fun p => decide (p.1 = c)) = true ↔ c ∈ keysOf counts := by
  simp [List.any_eq_true, keysOf, List.mem_map]

theorem mem_keysOf_cons {p : Nat × Nat} {ps : List (Nat × Nat)} {c : Nat} :
    c ∈ keysOf (p :: ps) ↔ c = p.1 ∨ c ∈ keysOf ps := by
  simp [keysOf]

theorem countOf_eq_zero_of_not_mem (counts : List (Nat × Nat)) (c : Nat)
    (h : c ∉ keysOf counts) : countOf counts c = 0 := by
  induction counts with
  | nil => rfl
  | cons p ps ih =>
    have hp : ¬ (p.1 = c) := fun he => h (mem_keysOf_cons.2 (Or.inl he.symm))
    have hps : c ∉ keysOf ps := fun hm => h (mem_keysOf_cons.2 (Or.inr hm))
    unfold countOf
    rw [List.find?_cons_of_neg _ (by simpa using hp)]
    exact ih hps

theorem countOf_map_incr_self (counts : List (Nat × Nat)) (c : Nat)
    (hc : c ∈ keysOf counts) :
    countOf (counts.map (fun p => if p.1 = c then (p.1, p.2 + 1) else p)) c =
      countOf counts c + 1 := by
  induction counts with
  | nil => simp [keysOf] at hc
  | cons p ps ih =>
    by_cases hp : p.1 = c
    · unfold countOf
      rw [List.map_cons, if_pos hp,
        List.find?_cons_of_pos _ (by simpa using hp),
        List.find?_cons_of_pos _ (by simpa using hp)]
    · have hc' : c ∈ keysOf ps := by
        rcases mem_keysOf_cons.1 hc with h0 | h0
        · exact absurd h0.symm hp
        · exact h0
      unfold countOf
      rw [List.map_cons, if_neg hp,
        List.find?_cons_of_neg _ (by simpa using hp),
        List.find?_cons_of_neg _ (by simpa using hp)]
      exact ih hc'

theorem countOf_map_incr_ne (counts : List (Nat × Nat)) (c d : Nat) (hdc : d ≠ c) :
    countOf (counts.map (fun p => if p.1 = c then (p.1, p.2 + 1) else p)) d =
      countOf counts d := by
  induction counts with
  | nil => rfl
  | cons p ps ih =>
    by_cases hp : p.1 = d
    · have hpc : ¬ (p.1 = c) := by rw [hp]; exact hdc
      unfold countOf
      rw [List.map_cons, if_neg hpc,
        List.find?_cons_of_pos _ (by simpa using hp),
        List.find?_cons_of_pos _ (by simpa using hp)]
    · unfold countOf
      have h1 : ((if p.1 = c then (p.1, p.2 + 1) else p) : Nat × Nat).1 = p.1 := by
        split <;> rfl
      rw [List.map_cons,
        List.find?_cons_of_neg _ (by simpa [h1] using hp),
        List.find?_cons_of_neg _ (by simpa using hp)]
      exact ih

theorem countOf_append_one_self (counts : List (Nat × Nat)) (c : Nat)
    (h : c ∉ keysOf counts) : countOf (counts ++ [(c, 1)]) c = 1 := by
  induction counts with
  | nil => simp [countOf]
  | cons p ps ih =>
    have hp : ¬ (p.1 = c) := fun he => h (mem_keysOf_cons.2 (Or.inl he.symm))
    have hps : c ∉ keysOf ps := fun hm => h (mem_keysOf_cons.2 (Or.inr hm))
    unfold countOf
    rw [List.cons_append, List.find?_cons_of_neg _ (by simpa using hp)]
    exact ih hps

theorem countOf_append_one_ne (counts : List (Nat × Nat)) (c d : Nat) (hdc : d ≠ c) :
    countOf (counts ++ [(c, 1)]) d = countOf counts d := by
  induction counts with
  | nil =>
    unfold countOf
    rw [List.nil_append, List.find?_cons_of_neg _ (by simpa using Ne.symm hdc)]
  | cons p ps ih =>
    by_cases hp : p.1 = d
    · unfold countOf
      rw [List.cons_append,
        List.find?_cons_of_pos _ (by simpa using hp),
        List.find?_cons_of_pos _ (by simpa using hp)]
    · unfold countOf
      rw [List.cons_append,
        List.find?_cons_of_neg _ (by simpa using hp),
        List.find?_cons_of_neg _ (by simpa using hp)]
      exact ih

theorem countOf_bump_self (counts : List (Nat × Nat)) (c : Nat) :
    countOf (bump counts c) c = countOf counts c + 1 := by
  unfold bump
  split
  case isTrue h => exact countOf_map_incr_self counts c ((any_key_iff counts c).1 h)
  case isFalse h =>
    have hc : c ∉ keysOf counts := fun hm => h ((any_key_iff counts c).2 hm)
    rw [countOf_append_one_self counts c hc, countOf_eq_zero_of_not_mem counts c hc]

theorem countOf_bump_ne (counts : List (Nat × Nat)) (c d : Nat) (hdc : d ≠ c) :
    countOf (bump counts c) d = countOf counts d := by
  unfold bump
  split
  · exact countOf_map_incr_ne counts c d hdc
  · exact countOf_append_one_ne counts c d hdc

theorem keysOf_map_incr (counts : List (Nat × Nat)) (c : Nat) :
    keysOf (counts.map (fun p => if p.1 = c then (p.1, p.2 + 1) else p)) =
      keysOf counts := by
  induction counts with
  | nil => rfl
  | cons p ps ih =>
    have h1 : ((if p.1 = c then (p.1, p.2 + 1) else p) : Nat × Nat).1 = p.1 := by
      split <;> rfl
    simp only [keysOf, List.map_cons] at ih ⊢
    rw [h1, ih]

theorem keysOf_append (counts more : List (Nat × Nat)) :
    keysOf (counts ++ more) = keysOf counts ++ keysOf more := by
  simp [keysOf]

theorem keysOf_bump_nodup (counts : List (Nat × Nat)) (c : Nat)
    (h : (keysOf counts).Nodup) : (keysOf (bump counts c)).Nodup := by
  unfold bump
  split
  case isTrue _ => rw [keysOf_map_incr]; exact h
  case isFalse hany =>
    have hc : c ∉ keysOf counts := fun hm => hany ((any_key_iff counts c).2 hm)
    rw [keysOf_append]
    simp only [keysOf, List.map_cons, List.map_nil]
    exact List.Nodup.append h (List.nodup_singleton c) (by
      intro a ha hb
      simp only [List.mem_singleton] at hb
      subst hb
      exact hc ha)

theorem mem_keysOf_bump {counts : List (Nat × Nat)} {c k : Nat}
    (h : k ∈ keysOf (bump counts c)) : k ∈ keysOf counts ∨ k = c := by
  unfold bump at h
  split at h
  · rw [keysOf_map_incr] at h; exact Or.inl h
  · rw [keysOf_append] at h
    rcases List.mem_append.1 h with h1 | h1
    · exact Or.inl h1
    · simp only [keysOf, List.map_cons, List.map_nil, List.mem_singleton] at h1
      exact Or.inr h1

theorem map_incr_of_not_mem (counts : List (Nat × Nat)) (c : Nat)
    (h : c ∉ keysOf counts) :
    counts.map (fun p => if p.1 = c then (p.1, p.2 + 1) else p) = counts := by
  induction counts with
  | nil => rfl
  | cons p ps ih =>
    have hp : ¬ (p.1 = c) := fun he => h (mem_keysOf_cons.2 (Or.inl he.symm))
    have hps : c ∉ keysOf ps := fun hm => h (mem_keysOf_cons.2 (Or.inr hm))
    rw [List.map_cons, if_neg hp, ih hps]

theorem sumCounts_map_incr (counts : List (Nat × Nat)) (c : Nat)
    (hnd : (keysOf counts).Nodup) (hc : c ∈ keysOf counts) :
    sumCounts (counts.map (fun p => if p.1 = c then (p.1, p.2 + 1) else p)) =
      sumCounts counts + 1 := by
  induction counts with
  | nil => simp [keysOf] at hc
  | cons p ps ih =>
    have hnd2 : (p.1 :: keysOf ps).Nodup := by
      simpa only [keysOf, List.map_cons] using hnd
    have hnd' := (List.nodup_cons.1 hnd2).2
    by_cases hp : p.1 = c
    · have hcp : c ∉ keysOf ps := by
        rw [← hp]
        exact (List.nodup_cons.1 hnd2).1
      rw [List.map_cons, if_pos hp, map_incr_of_not_mem ps c hcp]
      simp [sumCounts]
      omega
    · have hc' : c ∈ keysOf ps := by
        rcases mem_keysOf_cons.1 hc with h0 | h0
        · exact absurd h0.symm hp
        · exact h0
      rw [List.map_cons, if_neg hp]
      simp only [sumCounts, List.map_cons, List.sum_cons] at ih ⊢
      rw [ih hnd' hc']
      omega

theorem sumCounts_append (counts more : List (Nat × Nat)) :
    sumCounts (counts ++ more) = sumCounts counts + sumCounts more := by
  simp [sumCounts]

theorem sumCounts_bump (counts : List (Nat × Nat)) (c : Nat)
    (hnd : (keysOf counts).Nodup) :
    sumCounts (bump counts c) = sumCounts counts + 1 := by
  unfold bump
  split
  case isTrue h => exact sumCounts_map_incr counts c hnd ((any_key_iff counts c).1 h)
  case isFalse h => rw [sumCounts_append]; rfl

theorem firstNonExcluded_some {excl : List Nat} {l : List Nat} {c : Nat}
    (h : firstNonExcluded excl l = some c) : c ∉ excl ∧ c ∈ l := by
  induction l with
  | nil => cases h
  | cons a as ih =>
    unfold firstNonExcluded at h
    split at h
    · rcases ih h with ⟨h1, h2⟩
      exact ⟨h1, List.mem_cons_of_mem a h2⟩
    · injection h with h'
      subst h'
      exact ⟨by assumption, List.mem_cons_self a as⟩

/-! ### The ballot-processing loop -/

theorem countOf_tallyLoop (votes : List RankedVote) (pos : String) (excl : List Nat)
    (vs : List String) (counts : List (Nat × Nat)) (d : Nat) :
    countOf (tallyLoop votes pos excl counts vs) d =
      countOf counts d +
        (vs.filter (fun v =>
          decide (firstNonExcluded excl (voterPreferences votes pos v) = some d))).length := by
  induction vs generalizing counts with
  | nil => simp [tallyLoop]
  | cons v vs ih =>
    unfold tallyLoop
    cases hfc : firstNonExcluded excl (voterPreferences votes pos v) with
    | none =>
      simp only [hfc]
      rw [ih, List.filter_cons_of_neg (by simp [hfc])]
    | some c =>
      simp only [hfc]
      by_cases hdc : d = c
      · subst hdc
        rw [ih, countOf_bump_self, List.filter_cons_of_pos (by simp [hfc]),
          List.length_cons]
        omega
      · rw [ih, countOf_bump_ne counts c d hdc,
          List.filter_cons_of_neg (by simp [hfc]; omega)]

theorem keysOf_tallyLoop_nodup (votes : List RankedVote) (pos : String)
    (excl : List Nat) (vs : List String) (counts : List (Nat × Nat))
    (h : (keysOf counts).Nodup) :
    (keysOf (tallyLoop votes pos excl counts vs)).Nodup := by
  induction vs generalizing counts with
  | nil => simpa [tallyLoop] using h
  | cons v vs ih =>
    unfold tallyLoop
    cases hfc : firstNonExcluded excl (voterPreferences votes pos v) with
    | none =>
      simp only [hfc]
      exact ih counts h
    | some c =>
      simp only [hfc]
      exact ih _ (keysOf_bump_nodup counts c h)

theorem keysOf_tallyLoop_not_excluded (votes : List RankedVote) (pos : String)
    (excl : List Nat) (vs : List String) (counts : List (Nat × Nat))
    (h : ∀ k ∈ keysOf counts, k ∉ excl) :
    ∀ k ∈ keysOf (tallyLoop votes pos excl counts vs), k ∉ excl := by
  induction vs generalizing counts with
  | nil => simpa [tallyLoop] using h
  | cons v vs ih =>
    unfold tallyLoop
    cases hfc : firstNonExcluded excl (voterPreferences votes pos v) with
    | none =>
      simp only [hfc]
      exact ih counts h
    | some c =>
      simp only [hfc]
      refine ih _ ?_
      intro k hk
      rcases mem_keysOf_bump hk with h1 | h1
      · exact h k h1
      · subst h1
        exact (firstNonExcluded_some hfc).1

theorem sumCounts_tallyLoop (votes : List RankedVote) (pos : String)
    (excl : List Nat) (vs : List String) (counts : List (Nat × Nat))
    (hnd : (keysOf counts).Nodup) :
    sumCounts (tallyLoop votes pos excl counts vs) =
      sumCounts counts +
        (vs.filter (fun v =>
          (firstNonExcluded excl (voterPreferences votes pos v)).isSome)).length := by
  induction vs generalizing counts with
  | nil => simp [tallyLoop]
  | cons v vs ih =>
    unfold tallyLoop
    cases hfc : firstNonExcluded excl (voterPreferences votes pos v) with
    | none =>
      simp only [hfc]
      rw [ih counts hnd, List.filter_cons_of_neg (by simp [hfc])]
    | some c =>
      simp only [hfc]
      rw [ih _ (keysOf_bump_nodup counts c hnd), sumCounts_bump counts c hnd,
        List.filter_cons_of_pos (by simp [hfc]), List.length_cons]
      omega

theorem countOf_tallyVotes (votes : List RankedVote) (pos : String)
    (excl : List Nat) (voters : List String) (d : Nat) :
    countOf (tallyVotes votes pos excl voters) d =
      (voters.filter (fun v =>
        decide (firstNonExcluded excl (voterPreferences votes pos v) = some d))).length := by
  unfold tallyVotes
  rw [countOf_tallyLoop]
  have h0 : countOf [] d = 0 := rfl
  omega

theorem keysOf_tallyVotes_nodup (votes : List RankedVote) (pos : String)
    (excl : List Nat) (voters : List String) :
    (keysOf (tallyVotes votes pos excl voters)).Nodup :=
  keysOf_tallyLoop_nodup votes pos excl voters [] (by simp [keysOf])

theorem keysOf_tallyVotes_not_excluded (votes : List RankedVote) (pos : String)
    (excl : List Nat) (voters : List String) :
    ∀ k ∈ keysOf (tallyVotes votes pos excl voters), k ∉ excl :=
  keysOf_tallyLoop_not_excluded votes pos excl voters [] (by simp [keysOf])

theorem sumCounts_tallyVotes (votes : List RankedVote) (pos : String)
    (excl : List Nat) (voters : List String) :
    sumCounts (tallyVotes votes pos excl voters) =
      (voters.filter (fun v =>
        (firstNonExcluded excl (voterPreferences votes pos v)).isSome)).length := by
  unfold tallyVotes
  rw [sumCounts_tallyLoop votes pos excl voters [] (by simp [keysOf])]
  have h0 : sumCounts [] = 0 := rfl
  omega

theorem sumCounts_tallyVotes_le (votes : List RankedVote) (pos : String)
    (excl : List Nat) (voters : List String) :
    sumCounts (tallyVotes votes pos excl voters) ≤ voters.length := by
  rw [sumCounts_tallyVotes]
  exact List.length_filter_le _ _

/-! ### Assembling the result list -/

theorem mem_resultsFromCounts {cands : List Candidate} {counts : List (Nat × Nat)}
    {r : CandResult} (h : r ∈ resultsFromCounts cands counts) :
    ∃ p ∈ counts, r.id = p.1 ∧ r.votes = p.2 := by
  unfold resultsFromCounts at h
  rcases List.mem_filterMap.1 h with ⟨p, hp, hf⟩
  rcases Option.map_eq_some'.1 hf with ⟨cand, hfind, he⟩
  have hid : cand.id = p.1 := by simpa using List.find?_some hfind
  refine ⟨p, hp, ?_, ?_⟩
  · rw [← he]
    exact hid
  · rw [← he]

theorem resultsFromCounts_of_key {cands : List Candidate} {counts : List (Nat × Nat)}
    {k : Nat} (hk : k ∈ keysOf counts)
    (hfind : (cands.find? (fun cand => decide (cand.id = k))).isSome) :
    ∃ r ∈ resultsFromCounts cands counts, r.id = k := by
  rcases List.mem_map.1 hk with ⟨p, hp, hpk⟩
  subst hpk
  rcases Option.isSome_iff_exists.1 hfind with ⟨cand, hfc⟩
  have hid : cand.id = p.1 := by
    have h1 := List.find?_some hfc
    exact of_decide_eq_true h1
  refine ⟨{ id := cand.id, name := cand.name, votes := p.2 }, ?_, hid⟩
  unfold resultsFromCounts
  refine List.mem_filterMap.2 ⟨p, hp, ?_⟩
  rw [hfc]
  rfl

theorem sum_map_zero (l : List α) : (l.map (fun _ => (0 : Nat))).sum = 0 := by
  induction l with
  | nil => rfl
  | cons x xs ih => simp [ih]

theorem votes_addZeroVotes (cands : List Candidate) (pos : String)
    (excl : List Nat) (base : List CandResult) :
    ((addZeroVotes cands pos excl base).map (fun r => r.votes)).sum =
      ((base.map (fun r => r.votes)).sum) := by
  unfold addZeroVotes
  rw [List.map_append, List.sum_append, List.map_map]
  have h0 : ((cands.filter (fun c => decide (c.category = pos))).filter
      (fun c => decide (¬ base.any (fun r => decide (r.id = c.id)) ∧ c.id ∉ excl))).map
        ((fun r : CandResult => r.votes) ∘ fun c =>
          ({ id := c.id, name := c.name, votes := 0 } : CandResult)) =
      ((cands.filter (fun c => decide (c.category = pos))).filter
      (fun c => decide (¬ base.any (fun r => decide (r.id = c.id)) ∧ c.id ∉ excl))).map
        (fun _ => (0 : Nat)) := rfl
  rw [h0, sum_map_zero]
  omega

theorem base_subset_addZeroVotes {cands : List Candidate} {pos : String}
    {excl : List Nat} {base : List CandResult} :
    base ⊆ addZeroVotes cands pos excl base := by
  intro r hr
  exact List.mem_append_left _ hr

theorem mem_addZeroVotes_of_zero {cands : List Candidate} {pos : String}
    {excl : List Nat} {base : List CandResult} {c : Candidate}
    (hc : c ∈ cands) (hcat : c.category = pos)
    (hbase : ¬ base.any (fun q => decide (q.id = c.id)) = true) (hexcl : c.id ∉ excl) :
    ({ id := c.id, name := c.name, votes := 0 } : CandResult) ∈
      addZeroVotes cands pos excl base := by
  unfold addZeroVotes
  refine List.mem_append_right _ ?_
  refine List.mem_map.2 ⟨c, ?_, rfl⟩
  refine List.mem_filter.2 ⟨List.mem_filter.2 ⟨hc, by simpa using hcat⟩, ?_⟩
  simp only [decide_eq_true_eq]
  exact ⟨hbase, hexcl⟩

theorem mem_addZeroVotes_elim {cands : List Candidate} {pos : String}
    {excl : List Nat} {base : List CandResult} {r : CandResult}
    (h : r ∈ addZeroVotes cands pos excl base) :
    r ∈ base ∨ (r.votes = 0 ∧ r.id ∉ excl ∧
      ∃ c ∈ cands, c.category = pos ∧ r.id = c.id ∧ r.name = c.name) := by
  unfold addZeroVotes at h
  rcases List.mem_append.1 h with h1 | h1
  · exact Or.inl h1
  · rcases List.mem_map.1 h1 with ⟨c, hcf, he⟩
    rcases List.mem_filter.1 hcf with ⟨hcf1, hcond⟩
    rcases List.mem_filter.1 hcf1 with ⟨hc, hcat⟩
    have hcond' := of_decide_eq_true hcond
    subst he
    exact Or.inr ⟨rfl, hcond'.2, c, hc, of_decide_eq_true hcat, rfl, rfl⟩

theorem votes_resultsFromCounts (cands : List Candidate) (counts : List (Nat × Nat))
    (h : ∀ p ∈ counts, ∃ cand ∈ cands, cand.id = p.1) :
    ((resultsFromCounts cands counts).map (fun r => r.votes)).sum = sumCounts counts := by
  induction counts with
  | nil => rfl
  | cons p ps ih =>
    rcases h p (List.mem_cons_self p ps) with ⟨cand0, hc0, hid0⟩
    have hfind : (cands.find? (fun cand => decide (cand.id = p.1))).isSome := by
      rw [List.find?_isSome]
      exact ⟨cand0, hc0, by simpa using hid0⟩
    rcases Option.isSome_iff_exists.1 hfind with ⟨cand, hfc⟩
    have hfp : (cands.find? (fun cand => decide (cand.id = p.1))).map
        (fun cand => ({ id := cand.id, name := cand.name, votes := p.2 } : CandResult)) =
        some { id := cand.id, name := cand.name, votes := p.2 } := by
      rw [hfc]
      rfl
    unfold resultsFromCounts at ih ⊢
    rw [List.filterMap_cons, hfp, List.map_cons, List.sum_cons,
      ih (fun q hq => h q (List.mem_cons_of_mem p hq))]
    simp [sumCounts]

/-! ### Properties of the assembled tally -/

theorem resultsList_not_excluded (cands : List Candidate) (votes : List RankedVote)
    (pos : String) (excl : List Nat) :
    ∀ r ∈ resultsList cands votes pos excl, r.id ∉ excl := by
  intro r hr
  have h1 := (mem_sortOn _ r _).1 hr
  rcases mem_addZeroVotes_elim h1 with h2 | h2
  · rcases mem_resultsFromCounts h2 with ⟨p, hp, hid, _⟩
    rw [hid]
    exact keysOf_tallyVotes_not_excluded votes pos excl _ p.1
      (List.mem_map.2 ⟨p, hp, rfl⟩)
  · exact h2.2.1

theorem winner_mem_results {cands : List Candidate} {votes : List RankedVote}
    {pos : String} {excl : List Nat} {w : CandResult}
    (h : (computeWinnerOn cands votes pos excl).winner = some w) :
    w ∈ resultsList cands votes pos excl := by
  have h1 : (resultsList cands votes pos excl).head? = some w := h
  cases hl : resultsList cands votes pos excl with
  | nil => rw [hl] at h1; cases h1
  | cons a as =>
    rw [hl] at h1
    injection h1 with h2
    subst h2
    exact List.mem_cons_self a as

theorem winner_not_excluded {cands : List Candidate} {votes : List RankedVote}
    {pos : String} {excl : List Nat} {w : CandResult}
    (h : (computeWinnerOn cands votes pos excl).winner = some w) : w.id ∉ excl :=
  resultsList_not_excluded cands votes pos excl w (winner_mem_results h)

theorem winner_none_iff (cands : List Candidate) (votes : List RankedVote)
    (pos : String) (excl : List Nat) :
    (computeWinnerOn cands votes pos excl).winner = none ↔
      (computeWinnerOn cands votes pos excl).results = [] := by
  show (resultsList cands votes pos excl).head? = none ↔
    resultsList cands votes pos excl = []
  exact List.head?_eq_none_iff

theorem completeness_of_candidate {cands : List Candidate} {votes : List RankedVote}
    {pos : String} {excl : List Nat} {c : Candidate}
    (hc : c ∈ cands) (hcat : c.category = pos) (hexcl : c.id ∉ excl) :
    ∃ r ∈ resultsList cands votes pos excl, r.id = c.id := by
  by_cases hb : (resultsFromCounts cands
      (tallyVotes votes pos excl (votersOf votes pos))).any
        (fun q => decide (q.id = c.id)) = true
  · rcases List.any_eq_true.1 hb with ⟨r, hr, hrid⟩
    exact ⟨r, (mem_sortOn _ r _).2 (base_subset_addZeroVotes hr),
      of_decide_eq_true hrid⟩
  · refine ⟨{ id := c.id, name := c.name, votes := 0 }, ?_, rfl⟩
    exact (mem_sortOn _ _ _).2 (mem_addZeroVotes_of_zero hc hcat hb hexcl)

theorem completeness_zero {cands : List Candidate} {votes : List RankedVote}
    {pos : String} {excl : List Nat} {c : Candidate}
    (hc : c ∈ cands) (hcat : c.category = pos) (hexcl : c.id ∉ excl)
    (hzero : c.id ∉ keysOf (tallyVotes votes pos excl (votersOf votes pos))) :
    ∃ r ∈ resultsList cands votes pos excl, r.id = c.id ∧ r.votes = 0 := by
  have hb : ¬ (resultsFromCounts cands
      (tallyVotes votes pos excl (votersOf votes pos))).any
        (fun q => decide (q.id = c.id)) = true := by
    intro hany
    rcases List.any_eq_true.1 hany with ⟨r, hr, hrid⟩
    rcases mem_resultsFromCounts hr with ⟨p, hp, hid, _⟩
    apply hzero
    rw [show c.id = p.1 by rw [← hid]; exact (of_decide_eq_true hrid).symm]
    exact List.mem_map.2 ⟨p, hp, rfl⟩
  exact ⟨{ id := c.id, name := c.name, votes := 0 },
    (mem_sortOn _ _ _).2 (mem_addZeroVotes_of_zero hc hcat hb hexcl), rfl, rfl⟩

theorem votes_sum_resultsList (cands : List Candidate) (votes : List RankedVote)
    (pos : String) (excl : List Nat)
    (h : ∀ k ∈ keysOf (tallyVotes votes pos excl (votersOf votes pos)),
      ∃ cand ∈ cands, cand.id = k) :
    ((resultsList cands votes pos excl).map (fun r => r.votes)).sum =
      sumCounts (tallyVotes votes pos excl (votersOf votes pos)) := by
  unfold resultsList
  rw [((perm_sortOn (fun a b => decide (b.votes ≤ a.votes))
      (addZeroVotes cands pos excl (resultsFromCounts cands
        (tallyVotes votes pos excl (votersOf votes pos))))).map
          (fun r => r.votes)).sum_eq,
    votes_addZeroVotes,
    votes_resultsFromCounts cands _ (fun p hp => h p.1 (List.mem_map.2 ⟨p, hp, rfl⟩))]

theorem conservation_on (cands : List Candidate) (votes : List RankedVote)
    (pos : String) (excl : List Nat)
    (h : ∀ k ∈ keysOf (tallyVotes votes pos excl (votersOf votes pos)),
      ∃ cand ∈ cands, cand.id = k) :
    (computeWinnerOn cands votes pos excl).total_voters =
      (computeWinnerOn cands votes pos excl).exhausted_votes +
        ((computeWinnerOn cands votes pos excl).results.map (fun r => r.votes)).sum := by
  show (votersOf votes pos).length =
    ((votersOf votes pos).length -
      sumCounts (tallyVotes votes pos excl (votersOf votes pos))) +
      ((resultsList cands votes pos excl).map (fun r => r.votes)).sum
  rw [votes_sum_resultsList cands votes pos excl h]
  have hle := sumCounts_tallyVotes_le votes pos excl (votersOf votes pos)
  omega

/-! ### The orchestrator -/

theorem compute_position_winner_congr {st1 st2 : State} (pos : String)
    (excl : List Nat) (h1 : st1.candidates = st2.candidates)
    (h2 : st1.rankedVotes = st2.rankedVotes) :
    compute_position_winner st1 pos excl = compute_position_winner st2 pos excl := by
  unfold compute_position_winner
  rw [h1, h2]

theorem exclStep_congr {st1 st2 : State} (excl : List Nat) (p : Position)
    (h1 : st1.candidates = st2.candidates) (h2 : st1.rankedVotes = st2.rankedVotes) :
    exclStep st1 excl p = exclStep st2 excl p := by
  unfold exclStep
  rw [compute_position_winner_congr p.position_code excl h1 h2]

theorem computeAllAux_congr {st1 st2 : State} (ps : List Position) (excl : List Nat)
    (h1 : st1.candidates = st2.candidates) (h2 : st1.rankedVotes = st2.rankedVotes) :
    computeAllAux st1 ps excl = computeAllAux st2 ps excl := by
  induction ps generalizing excl with
  | nil => rfl
  | cons p ps ih =>
    unfold computeAllAux
    rw [compute_position_winner_congr p.position_code excl h1 h2,
      exclStep_congr excl p h1 h2, ih]

theorem compute_all_results_congr {st1 st2 : State}
    (h1 : st1.candidates = st2.candidates) (h2 : st1.rankedVotes = st2.rankedVotes)
    (h3 : st1.positions = st2.positions) :
    compute_all_results st1 = compute_all_results st2 := by
  unfold compute_all_results positionsByRank
  rw [h3, computeAllAux_congr _ _ h1 h2]

theorem computeAllAux_length (st : State) (ps : List Position) (excl : List Nat) :
    (computeAllAux st ps excl).length = ps.length := by
  induction ps generalizing excl with
  | nil => rfl
  | cons p ps ih =>
    unfold computeAllAux
    rw [List.length_cons, ih, List.length_cons]

theorem compute_all_results_length (st : State) :
    (compute_all_results st).length = st.positions.length := by
  unfold compute_all_results positionsByRank
  rw [computeAllAux_length, (perm_sortOn _ st.positions).length_eq]

theorem exclSeq_length (st : State) (ps : List Position) (excl : List Nat) :
    (exclSeq st ps excl).length = ps.length := by
  induction ps generalizing excl with
  | nil => rfl
  | cons p ps ih =>
    unfold exclSeq
    rw [List.length_cons, ih, List.length_cons]

theorem exclSeq_getD_zero (st : State) (p : Position) (ps : List Position)
    (excl : List Nat) : (exclSeq st (p :: ps) excl).getD 0 [] = excl := rfl

theorem exclSeq_getD_succ (st : State) (ps : List Position) (excl : List Nat)
    (k : Nat) (pd : Position) (h : k + 1 < ps.length) :
    (exclSeq st ps excl).getD (k + 1) [] =
      exclStep st ((exclSeq st ps excl).getD k []) (ps.getD k pd) := by
  induction ps generalizing excl k with
  | nil => simp at h
  | cons p ps ih =>
    cases k with
    | zero =>
      cases ps with
      | nil => simp at h
      | cons q qs => rfl
    | succ k =>
      have h' : k + 1 < ps.length := by
        simp only [List.length_cons] at h
        omega
      show (exclSeq st ps (exclStep st excl p)).getD (k + 1) [] = _
      rw [ih (exclStep st excl p) k h']
      rfl

/-! ### Persistence of winners -/

theorem save_replaces (st : State) (results : List TallyResult) :
    (save_election_winners st results).election_winners = winnerRowsOf results := rfl

theorem winnerRowsOf_length (results : List TallyResult) :
    (winnerRowsOf results).length =
      (results.filter (fun r => r.winner.isSome)).length := by
  induction results with
  | nil => rfl
  | cons r rs ih =>
    unfold winnerRowsOf at ih ⊢
    rw [List.filterMap_cons]
    cases hw : r.winner with
    | none =>
      rw [List.filter_cons_of_neg (by simp [hw])]
      simpa using ih
    | some w =>
      rw [List.filter_cons_of_pos (by simp [hw])]
      simp only [Option.map_some', List.length_cons, ih]

theorem winnerRowsOf_codes (results : List TallyResult) :
    (winnerRowsOf results).map (fun row => row.position_code) =
      (results.filter (fun r => r.winner.isSome)).map (fun r => r.position_code) := by
  induction results with
  | nil => rfl
  | cons r rs ih =>
    unfold winnerRowsOf at ih ⊢
    rw [List.filterMap_cons]
    cases hw : r.winner with
    | none =>
      rw [List.filter_cons_of_neg (by simp [hw])]
      simpa using ih
    | some w =>
      rw [List.filter_cons_of_pos (by simp [hw])]
      simp only [Option.map_some', List.map_cons, ih]

theorem get_election_winners_empty (st : State)
    (h : st.election_winners = []) : get_election_winners st = [] := by
  unfold get_election_winners
  rw [h]
  rfl

theorem get_election_winners_sorted (st : State) :
    (get_election_winners st).Pairwise
      (fun a b => a.rank_order ≤ b.rank_order) := by
  have h := pairwise_sortOn (fun a b : WinnerView => decide (a.rank_order ≤ b.rank_order))
    (fun a b => by
      rcases Nat.le_total a.rank_order b.rank_order with h1 | h1
      · exact Or.inl (by simpa using h1)
      · exact Or.inr (by simpa using h1))
    (fun a b c h1 h2 => by
      simp only [decide_eq_true_eq] at h1 h2 ⊢
      omega)
    (st.election_winners.flatMap (fun ew =>
      (st.positions.filter (fun p => decide (p.position_code = ew.position_code))).map
        (fun p =>
          { position_code := ew.position_code, candidate_id := ew.candidate_id,
            candidate_name := ew.candidate_name, vote_count := ew.vote_count,
            position_name := p.position_name, rank_order := p.rank_order })))
  refine List.Pairwise.imp ?_ h
  intro a b hab
  exact of_decide_eq_true hab

theorem mem_get_election_winners {st : State} {v : WinnerView}
    (h : v ∈ get_election_winners st) :
    ∃ ew ∈ st.election_winners, ∃ p ∈ st.positions,
      p.position_code = ew.position_code ∧
      v = { position_code := ew.position_code, candidate_id := ew.candidate_id,
            candidate_name := ew.candidate_name, vote_count := ew.vote_count,
            position_name := p.position_name, rank_order := p.rank_order } := by
  unfold get_election_winners at h
  have h1 := (mem_sortOn _ v _).1 h
  rcases List.mem_flatMap.1 h1 with ⟨ew, hew, hv⟩
  rcases List.mem_map.1 hv with ⟨p, hpf, he⟩
  rcases List.mem_filter.1 hpf with ⟨hp, hcode⟩
  exact ⟨ew, hew, p, hp, of_decide_eq_true hcode, he.symm⟩

/-! ### Recording ranked ballots -/

theorem ballotRows_length (v pos : String) (n : Nat) (ids : List Nat) :
    (ballotRows v pos n ids).length = ids.length := by
  induction ids generalizing n with
  | nil => rfl
  | cons cid rest ih =>
    unfold ballotRows
    rw [List.length_cons, ih, List.length_cons]

theorem ballotRows_map_rank (v pos : String) (n : Nat) (ids : List Nat) :
    (ballotRows v pos n ids).map (fun r => r.rank) = List.range' n ids.length := by
  induction ids generalizing n with
  | nil => rfl
  | cons cid rest ih =>
    unfold ballotRows
    rw [List.map_cons, ih (n + 1)]
    rfl

theorem ballotRows_map_candidate (v pos : String) (n : Nat) (ids : List Nat) :
    (ballotRows v pos n ids).map (fun r => r.candidate) = ids := by
  induction ids generalizing n with
  | nil => rfl
  | cons cid rest ih =>
    unfold ballotRows
    rw [List.map_cons, ih (n + 1)]

theorem ballotRows_filter_self (v pos : String) (n : Nat) (ids : List Nat) :
    (ballotRows v pos n ids).filter
      (fun r => decide (r.voter = v ∧ r.position = pos)) = ballotRows v pos n ids := by
  induction ids generalizing n with
  | nil => rfl
  | cons cid rest ih =>
    unfold ballotRows
    rw [List.filter_cons_of_pos (by simp), ih (n + 1)]

theorem ballotRows_filter_other (v pos v' pos' : String) (n : Nat) (ids : List Nat)
    (h : ¬ (v = v' ∧ pos = pos')) :
    (ballotRows v pos n ids).filter
      (fun r => decide (r.voter = v' ∧ r.position = pos')) = [] := by
  induction ids generalizing n with
  | nil => rfl
  | cons cid rest ih =>
    unfold ballotRows
    rw [List.filter_cons_of_neg (by simpa using h), ih (n + 1)]

theorem record_cases (st : State) (v pos : String) (ids : List Nat) :
    (record_ranked_votes st v pos ids = (st, false, "Invalid position")) ∨
    (record_ranked_votes st v pos ids =
      (st, false, "You have already voted for this position")) ∨
    (∃ cid : Nat, record_ranked_votes st v pos ids =
      (st, false, "Invalid candidate ID: " ++ toString cid)) ∨
    (record_ranked_votes st v pos ids =
      ({ st with rankedVotes := st.rankedVotes ++ ballotRows v pos 1 ids },
        true, "Votes recorded successfully")) := by
  unfold record_ranked_votes
  split
  · exact Or.inl rfl
  · split
    · exact Or.inr (Or.inl rfl)
    · split
      · rename_i cid heq
        exact Or.inr (Or.inr (Or.inl ⟨cid, rfl⟩))
      · exact Or.inr (Or.inr (Or.inr rfl))

theorem record_fail_unchanged (st : State) (v pos : String) (ids : List Nat)
    (h : (record_ranked_votes st v pos ids).2.1 = false) :
    (record_ranked_votes st v pos ids).1 = st := by
  rcases record_cases st v pos ids with hc | hc | ⟨cid, hc⟩ | hc <;>
    rw [hc] at h ⊢ <;> simp at h

theorem record_already_voted (st : State) (v pos : String) (ids : List Nat)
    (h : st.rankedVotes.any (fun r => decide (r.voter = v ∧ r.position = pos)) = true) :
    (record_ranked_votes st v pos ids).2.1 = false := by
  unfold record_ranked_votes
  by_cases hcat : pos ∉ CATEGORIES
  · rw [if_pos hcat]
  · rw [if_neg hcat, if_pos h]

theorem record_invalid_candidate (st : State) (v pos : String) (ids : List Nat)
    (cid : Nat) (hmem : cid ∈ ids)
    (hinv : ∀ c ∈ st.candidates, ¬ (c.id = cid ∧ c.category = pos)) :
    (record_ranked_votes st v pos ids).2.1 = false := by
  unfold record_ranked_votes
  split
  · rfl
  · split
    · rfl
    · split
      · rfl
      · exfalso
        rename_i heq
        have hnone := List.find?_eq_none.1 heq cid hmem
        apply hnone
        simp only [Bool.not_eq_true']
        rw [List.any_eq_false]
        intro c hc
        simp only [decide_eq_true_eq]
        exact hinv c hc

theorem record_success_rankedVotes (st : State) (v pos : String) (ids : List Nat)
    (h : (record_ranked_votes st v pos ids).2.1 = true) :
    (record_ranked_votes st v pos ids).1.rankedVotes =
      st.rankedVotes ++ ballotRows v pos 1 ids := by
  rcases record_cases st v pos ids with hc | hc | ⟨cid, hc⟩ | hc <;>
    rw [hc] at h ⊢ <;> simp at h

theorem record_success_not_voted (st : State) (v pos : String) (ids : List Nat)
    (h : (record_ranked_votes st v pos ids).2.1 = true) :
    st.rankedVotes.any (fun r => decide (r.voter = v ∧ r.position = pos)) = false := by
  by_cases hv : st.rankedVotes.any (fun r => decide (r.voter = v ∧ r.position = pos)) = true
  · exfalso
    have hfail := record_already_voted st v pos ids hv
    rw [h] at hfail
    cases hfail
  · exact Bool.eq_false_iff.2 hv

theorem record_other_fields (st : State) (v pos : String) (ids : List Nat) :
    (record_ranked_votes st v pos ids).1.candidates = st.candidates ∧
    (record_ranked_votes st v pos ids).1.positions = st.positions ∧
    (record_ranked_votes st v pos ids).1.election_winners = st.election_winners := by
  rcases record_cases st v pos ids with hc | hc | ⟨cid, hc⟩ | hc <;>
    rw [hc] <;> exact ⟨rfl, rfl, rfl⟩

theorem record_preserves_oneBallotInv (st : State) (v pos : String) (ids : List Nat)
    (hinv : oneBallotInv st) :
    oneBallotInv (record_ranked_votes st v pos ids).1 := by
  by_cases hok : (record_ranked_votes st v pos ids).2.1 = true
  · have hrv := record_success_rankedVotes st v pos ids hok
    have hnv := record_success_not_voted st v pos ids hok
    intro v' pos'
    rw [hrv, List.filter_append]
    by_cases hsame : v = v' ∧ pos = pos'
    · rcases hsame with ⟨rfl, rfl⟩
      have hold : st.rankedVotes.filter
          (fun r => decide (r.voter = v ∧ r.position = pos)) = [] := by
        rw [List.filter_eq_nil_iff]
        intro r hr
        have := List.any_eq_false.1 hnv r hr
        simpa using this
      rw [hold, List.nil_append, ballotRows_filter_self,
        ballotRows_map_rank, ballotRows_length]
    · rw [ballotRows_filter_other v pos v' pos' 1 ids hsame, List.append_nil]
      exact hinv v' pos'
  · have hun := record_fail_unchanged st v pos ids (Bool.eq_false_iff.2 hok)
    rw [hun]
    exact hinv

/-! ### Remaining helper lemmas -/

theorem length_some_add_none (votes : List RankedVote) (pos : String)
    (excl : List Nat) (voters : List String) :
    (voters.filter (fun v =>
      (firstNonExcluded excl (voterPreferences votes pos v)).isSome)).length +
    (voters.filter (fun v =>
      decide (firstNonExcluded excl (voterPreferences votes pos v) = none))).length =
      voters.length := by
  induction voters with
  | nil => rfl
  | cons v vs ih =>
    cases hfc : firstNonExcluded excl (voterPreferences votes pos v) with
    | none =>
      rw [List.filter_cons_of_neg (by simp [hfc]),
        List.filter_cons_of_pos (by simp [hfc]), List.length_cons, List.length_cons]
      omega
    | some c =>
      rw [List.filter_cons_of_pos (by simp [hfc]),
        List.filter_cons_of_neg (by simp [hfc]), List.length_cons, List.length_cons]
      omega

theorem exhausted_votes_eq (st : State) (pos : String) (excl : List Nat) :
    (compute_position_winner st pos excl).exhausted_votes =
      ((votersOf st.rankedVotes pos).filter (fun v =>
        decide (firstNonExcluded excl
          (voterPreferences st.rankedVotes pos v) = none))).length := by
  show (votersOf st.rankedVotes pos).length -
      sumCounts (tallyVotes st.rankedVotes pos excl (votersOf st.rankedVotes pos)) = _
  rw [sumCounts_tallyVotes]
  have h := length_some_add_none st.rankedVotes pos excl (votersOf st.rankedVotes pos)
  omega

theorem keysOf_tallyLoop_invariant (votes : List RankedVote) (pos : String)
    (excl : List Nat) (vs : List String) (counts : List (Nat × Nat))
    (P : Nat → Prop)
    (hstep : ∀ v c, firstNonExcluded excl (voterPreferences votes pos v) = some c → P c)
    (h : ∀ k ∈ keysOf counts, P k) :
    ∀ k ∈ keysOf (tallyLoop votes pos excl counts vs), P k := by
  induction vs generalizing counts with
  | nil => simpa [tallyLoop] using h
  | cons v vs ih =>
    unfold tallyLoop
    cases hfc : firstNonExcluded excl (voterPreferences votes pos v) with
    | none =>
      simp only [hfc]
      exact ih counts h
    | some c =>
      simp only [hfc]
      refine ih _ ?_
      intro k hk
      rcases mem_keysOf_bump hk with h1 | h1
      · exact h k h1
      · rw [h1]
        exact hstep v c hfc

theorem mem_voterPreferences {votes : List RankedVote} {pos v : String} {c : Nat}
    (h : c ∈ voterPreferences votes pos v) :
    ∃ r ∈ votes, r.voter = v ∧ r.position = pos ∧ r.candidate = c := by
  unfold voterPreferences at h
  rcases List.mem_map.1 h with ⟨r, hr, hc⟩
  have hr2 := (mem_sortOn _ r _).1 hr
  rcases List.mem_filter.1 hr2 with ⟨hrv, hcond⟩
  have hcond' := of_decide_eq_true hcond
  exact ⟨r, hrv, hcond'.1, hcond'.2, hc⟩

theorem keys_tallyVotes_from_votes (votes : List RankedVote) (pos : String)
    (excl : List Nat) (voters : List String) :
    ∀ k ∈ keysOf (tallyVotes votes pos excl voters),
      ∃ r ∈ votes, r.position = pos ∧ r.candidate = k := by
  refine keysOf_tallyLoop_invariant votes pos excl voters [] _ ?_ (by simp [keysOf])
  intro v c hfc
  rcases (firstNonExcluded_some hfc).2 with hcp
  rcases mem_voterPreferences hcp with ⟨r, hr, _, hrpos, hrc⟩
  exact ⟨r, hr, hrpos, hrc⟩

theorem resultsFromCounts_candidate {cands : List Candidate}
    {counts : List (Nat × Nat)} {r : CandResult}
    (h : r ∈ resultsFromCounts cands counts) :
    ∃ cand ∈ cands, cand.id = r.id := by
  unfold resultsFromCounts at h
  rcases List.mem_filterMap.1 h with ⟨p, hp, hf⟩
  rcases Option.map_eq_some'.1 hf with ⟨cand, hfind, he⟩
  exact ⟨cand, List.mem_of_find?_eq_some hfind, by rw [← he]⟩

theorem resultsList_candidate (cands : List Candidate) (votes : List RankedVote)
    (pos : String) (excl : List Nat) :
    ∀ r ∈ resultsList cands votes pos excl, ∃ cand ∈ cands, cand.id = r.id := by
  intro r hr
  rcases mem_addZeroVotes_elim ((mem_sortOn _ r _).1 hr) with h1 | h1
  · exact resultsFromCounts_candidate h1
  · rcases h1.2.2 with ⟨c, hc, _, hid, _⟩
    exact ⟨c, hc, hid.symm⟩

theorem no_ballots_zero (cands : List Candidate) (votes : List RankedVote)
    (pos : String) (excl : List Nat) (h : votersOf votes pos = []) :
    (computeWinnerOn cands votes pos excl).total_voters = 0 ∧
    (computeWinnerOn cands votes pos excl).exhausted_votes = 0 ∧
    ∀ r ∈ (computeWinnerOn cands votes pos excl).results, r.votes = 0 := by
  refine ⟨?_, ?_, ?_⟩
  · show (votersOf votes pos).length = 0
    rw [h]
    rfl
  · show (votersOf votes pos).length -
      sumCounts (tallyVotes votes pos excl (votersOf votes pos)) = 0
    rw [h]
    rfl
  · intro r hr
    have h1 := (mem_sortOn _ r _).1 hr
    rw [h] at h1
    have h2 : r ∈ addZeroVotes cands pos excl [] := h1
    rcases mem_addZeroVotes_elim h2 with h3 | h3
    · cases h3
    · exact h3.1

/-! ### Concrete states used in scenario theorems and witnesses -/

/-- Scenario A data: position VP, candidates X=1 and Y=2, three ballots
[X,Y], [X,Y], [Y,X]. -/
def stDemo : State :=
  { candidates := [{ id := 1, name := "X", category := "VP" },
                   { id := 2, name := "Y", category := "VP" }]
    rankedVotes :=
      [{ voter := "a", position := "VP", candidate := 1, rank := 1 },
       { voter := "a", position := "VP", candidate := 2, rank := 2 },
       { voter := "b", position := "VP", candidate := 1, rank := 1 },
       { voter := "b", position := "VP", candidate := 2, rank := 2 },
       { voter := "c", position := "VP", candidate := 2, rank := 1 },
       { voter := "c", position := "VP", candidate := 1, rank := 2 }]
    positions := [{ position_code := "VP", position_name := "Vice President",
                    rank_order := 1 }]
    election_winners := [] }

/-- `stDemo` with a stored winners row: same ballots and tables. -/
def stDemoSaved : State :=
  { stDemo with election_winners :=
      [{ position_code := "VP", candidate_id := 1, candidate_name := "X",
         vote_count := 2 }] }

/-- A single ranked vote for id 99, absent from the candidates table. -/
def stUnknownVote : State :=
  { candidates := []
    rankedVotes := [{ voter := "v", position := "VP", candidate := 99, rank := 1 }]
    positions := [{ position_code := "VP", position_name := "Vice President",
                    rank_order := 1 }]
    election_winners := [] }

/-- A ballot ranking the unknown id 99 first and the valid candidate Y=1
second. -/
def stC3 : State :=
  { candidates := [{ id := 1, name := "Y", category := "VP" }]
    rankedVotes :=
      [{ voter := "v", position := "VP", candidate := 99, rank := 1 },
       { voter := "v", position := "VP", candidate := 1, rank := 2 }]
    positions := [{ position_code := "VP", position_name := "Vice President",
                    rank_order := 1 }]
    election_winners := [] }

/-- A position with one candidate and no ballots at all. -/
def stNoBallots : State :=
  { candidates := [{ id := 1, name := "X", category := "VP" }]
    rankedVotes := []
    positions := [{ position_code := "VP", position_name := "Vice President",
                    rank_order := 1 }]
    election_winners := [] }

/-- Scenario C data: candidates X=1 and Y=2 for GS, one ballot ranking only
X, with X excluded by a prior win. -/
def stScenC : State :=
  { candidates := [{ id := 1, name := "X", category := "GS" },
                   { id := 2, name := "Y", category := "GS" }]
    rankedVotes := [{ voter := "v1", position := "GS", candidate := 1, rank := 1 }]
    positions := [{ position_code := "GS", position_name := "General Secretary",
                    rank_order := 2 }]
    election_winners := [] }

/-- Scenario C variant without the candidate Y. -/
def stScenC2 : State :=
  { candidates := [{ id := 1, name := "X", category := "GS" }]
    rankedVotes := [{ voter := "v1", position := "GS", candidate := 1, rank := 1 }]
    positions := [{ position_code := "GS", position_name := "General Secretary",
                    rank_order := 2 }]
    election_winners := [] }

/-- Two positions in rank order with one voter each, the VP winner also
ranked for GS. -/
def stTwo : State :=
  { candidates := [{ id := 1, name := "A", category := "VP" },
                   { id := 2, name := "B", category := "GS" }]
    rankedVotes :=
      [{ voter := "x", position := "VP", candidate := 1, rank := 1 },
       { voter := "x", position := "GS", candidate := 2, rank := 1 }]
    positions := [{ position_code := "VP", position_name := "Vice President",
                    rank_order := 1 },
                  { position_code := "GS", position_name := "General Secretary",
                    rank_order := 2 }]
    election_winners := [] }

/-- A TallyResult with no winner, as produced for an empty position. -/
def tallyNoWinner : TallyResult :=
  { position_code := "VP", position_name := "Vice President", winner := none,
    results := [], total_voters := 0, exhausted_votes := 0 }

/-! ### Claim theorems -/

/-- C1: for every ballot processed by `compute_position_winner`, the scan
awards the ballot's single effective vote to the first ranked candidate id
not in the excluded set — the counter recorded for each id equals the number
of ballots whose first non-excluded preference is that id — ballots whose
every ranked id is excluded are counted as exhausted and contribute to no
candidate, and the total of all counters equals the number of non-exhausted
ballots, so each ballot contributes at most one effective vote. -/
theorem C1_one_vote_per_ballot (st : State) (pos : String) (excl : List Nat) :
    (∀ c : Nat,
      countOf (tallyVotes st.rankedVotes pos excl (votersOf st.rankedVotes pos)) c =
        ((votersOf st.rankedVotes pos).filter (fun v =>
          decide (firstNonExcluded excl
            (voterPreferences st.rankedVotes pos v) = some c))).length) ∧
    (compute_position_winner st pos excl).exhausted_votes =
      ((votersOf st.rankedVotes pos).filter (fun v =>
        decide (firstNonExcluded excl
          (voterPreferences st.rankedVotes pos v) = none))).length ∧
    sumCounts (tallyVotes st.rankedVotes pos excl (votersOf st.rankedVotes pos)) =
      ((votersOf st.rankedVotes pos).filter (fun v =>
        (firstNonExcluded excl
          (voterPreferences st.rankedVotes pos v)).isSome)).length :=
  ⟨fun c => countOf_tallyVotes st.rankedVotes pos excl (votersOf st.rankedVotes pos) c,
   exhausted_votes_eq st pos excl,
   sumCounts_tallyVotes st.rankedVotes pos excl (votersOf st.rankedVotes pos)⟩

/-- C2 counterexample: with a ranked vote whose candidate id (99) is not in
the candidates table, the vote is counted internally but dropped from the
result list, and total_voters (= 1) differs from exhausted_votes (= 0) plus
the sum of listed effective vote counts (= 0). -/
theorem C2_counterexample :
    ¬ ((compute_position_winner stUnknownVote "VP" []).total_voters =
      (compute_position_winner stUnknownVote "VP" []).exhausted_votes +
        ((compute_position_winner stUnknownVote "VP" []).results.map
          (fun r => r.votes)).sum) := by
  decide

/-- C2 (amended): the conservation identity total_voters = exhausted_votes +
sum of listed effective vote counts holds for every position and exclusion
set, provided every candidate id referenced by the position's ranked votes
exists in the candidates table. -/
theorem C2_conservation (st : State) (pos : String) (excl : List Nat)
    (h : ∀ r ∈ st.rankedVotes, r.position = pos →
      ∃ cand ∈ st.candidates, cand.id = r.candidate) :
    (compute_position_winner st pos excl).total_voters =
      (compute_position_winner st pos excl).exhausted_votes +
        ((compute_position_winner st pos excl).results.map
          (fun r => r.votes)).sum := by
  apply conservation_on
  intro k hk
  rcases keys_tallyVotes_from_votes st.rankedVotes pos excl
    (votersOf st.rankedVotes pos) k hk with ⟨r, hr, hrpos, hrc⟩
  rcases h r hr hrpos with ⟨cand, hcand, hcid⟩
  exact ⟨cand, hcand, by rw [hcid, hrc]⟩

/-- C2 witness: conservation at the Scenario A state. -/
theorem C2_conservation_witness :
    (compute_position_winner stDemo "VP" []).total_voters =
      (compute_position_winner stDemo "VP" []).exhausted_votes +
        ((compute_position_winner stDemo "VP" []).results.map
          (fun r => r.votes)).sum :=
  C2_conservation stDemo "VP" [] (by decide)

/-- C3 counterexample: ballot [99, 1] where 99 is unknown and 1 is the valid
non-excluded candidate Y. The claim predicts the vote falls to Y; the code
lets the unknown id 99 capture the vote (it is merely not in the excluded
set), drops it from the result list, and does not count the ballot as
exhausted — Y ends with 0 votes and no entry has 1 vote. -/
theorem C3_counterexample :
    (¬ ∃ r ∈ (compute_position_winner stC3 "VP" []).results, r.votes = 1) ∧
    (compute_position_winner stC3 "VP" []).results =
      [{ id := 1, name := "Y", votes := 0 }] ∧
    (compute_position_winner stC3 "VP" []).exhausted_votes = 0 := by
  decide

/-- C3 (amended): `compute_position_winner` raises no error on malformed
ballots: a ballot with an empty rank list has no first choice and is counted
exhausted; but a ranked entry whose id is unknown to the candidates table is
still matched by the scan when not excluded — the ballot is then not counted
as exhausted (exhausted counts exactly the ballots with no non-excluded
entry), its vote does not fall to later valid candidates, and an id with no
candidate row never appears in the result list. -/
theorem C3_malformed (st : State) (pos : String) (excl : List Nat) :
    ((compute_position_winner st pos excl).exhausted_votes =
      ((votersOf st.rankedVotes pos).filter (fun v =>
        decide (firstNonExcluded excl
          (voterPreferences st.rankedVotes pos v) = none))).length) ∧
    (∀ v, voterPreferences st.rankedVotes pos v = [] →
      firstNonExcluded excl (voterPreferences st.rankedVotes pos v) = none) ∧
    (∀ c : Nat, (∀ cand ∈ st.candidates, cand.id ≠ c) →
      ∀ r ∈ (compute_position_winner st pos excl).results, r.id ≠ c) := by
  refine ⟨exhausted_votes_eq st pos excl, ?_, ?_⟩
  · intro v hv
    rw [hv]
    rfl
  · intro c hno r hr
    intro hrc
    rcases resultsList_candidate st.candidates st.rankedVotes pos excl r hr
      with ⟨cand, hcand, hcid⟩
    exact hno cand hcand (by rw [hcid, hrc])

/-- C3 witness: a voter with no rows is exhausted, and the unknown id 99
appears in no result entry, at concrete states. -/
theorem C3_malformed_witness :
    firstNonExcluded [] (voterPreferences stC3.rankedVotes "GS" "v") = none ∧
    ∀ r ∈ (compute_position_winner stC3 "VP" []).results, r.id ≠ 99 :=
  ⟨(C3_malformed stC3 "GS" []).2.1 "v" (by decide),
   (C3_malformed stC3 "VP" []).2.2 99 (by decide)⟩

/-- C4 counterexample: a position with no ballots but an eligible candidate:
the claim predicts winner = none, but the code returns the first eligible
candidate with 0 votes as the winner. -/
theorem C4_counterexample :
    (compute_position_winner stNoBallots "VP" []).total_voters = 0 ∧
    (compute_position_winner stNoBallots "VP" []).winner =
      some { id := 1, name := "X", votes := 0 } := by
  decide

/-- C4 (amended): the winner is none exactly when the result list is empty
(which requires that no non-excluded candidate of the position exists and no
counted vote survived); when a position has no ballots the tallies are
zero-filled (total_voters 0, exhausted_votes 0, all listed counts 0) but the
winner is the first listed eligible candidate rather than none; in either
case this is not an error and the orchestrator records one result per
position and moves on. -/
theorem C4_empty (st : State) (pos : String) (excl : List Nat) :
    ((compute_position_winner st pos excl).winner = none ↔
      (compute_position_winner st pos excl).results = []) ∧
    (votersOf st.rankedVotes pos = [] →
      (compute_position_winner st pos excl).total_voters = 0 ∧
      (compute_position_winner st pos excl).exhausted_votes = 0 ∧
      ∀ r ∈ (compute_position_winner st pos excl).results, r.votes = 0) ∧
    (compute_all_results st).length = st.positions.length :=
  ⟨winner_none_iff st.candidates st.rankedVotes pos excl,
   fun h => no_ballots_zero st.candidates st.rankedVotes pos excl h,
   compute_all_results_length st⟩

/-- C4 witness: the no-ballot position has zero-filled tallies. -/
theorem C4_empty_witness :
    (compute_position_winner stNoBallots "VP" []).total_voters = 0 ∧
    (compute_position_winner stNoBallots "VP" []).exhausted_votes = 0 ∧
    ∀ r ∈ (compute_position_winner stNoBallots "VP" []).results, r.votes = 0 :=
  (C4_empty stNoBallots "VP" []).2.1 (by decide)

/-- C5: every candidate of the position not in the excluded set appears in
the returned result list (with an explicit 0-vote entry when it received no
effective vote), while every excluded candidate is omitted from the list
entirely and can never be the returned winner. -/
theorem C5_completeness_exclusion (st : State) (pos : String) (excl : List Nat) :
    (∀ c ∈ st.candidates, c.category = pos → c.id ∉ excl →
      ∃ r ∈ (compute_position_winner st pos excl).results, r.id = c.id) ∧
    (∀ c ∈ st.candidates, c.category = pos → c.id ∉ excl →
      c.id ∉ keysOf (tallyVotes st.rankedVotes pos excl
        (votersOf st.rankedVotes pos)) →
      ∃ r ∈ (compute_position_winner st pos excl).results,
        r.id = c.id ∧ r.votes = 0) ∧
    (∀ r ∈ (compute_position_winner st pos excl).results, r.id ∉ excl) ∧
    (∀ w, (compute_position_winner st pos excl).winner = some w → w.id ∉ excl) := by
  refine ⟨?_, ?_, ?_, ?_⟩
  · intro c hc hcat hexcl
    exact completeness_of_candidate hc hcat hexcl
  · intro c hc hcat hexcl hzero
    exact completeness_zero hc hcat hexcl hzero
  · exact resultsList_not_excluded st.candidates st.rankedVotes pos excl
  · intro w hw
    exact winner_not_excluded hw

/-- C5 witness: with Y=2 excluded at the Scenario A state, X=1 still appears
in the result list and no listed or winning candidate is the excluded one. -/
theorem C5_completeness_exclusion_witness :
    (∃ r ∈ (compute_position_winner stDemo "VP" [2]).results, r.id = 1) ∧
    (∀ r ∈ (compute_position_winner stDemo "VP" [2]).results, r.id ∉ [2]) :=
  ⟨(C5_completeness_exclusion stDemo "VP" [2]).1
      { id := 1, name := "X", category := "VP" } (by decide) rfl (by decide),
   (C5_completeness_exclusion stDemo "VP" [2]).2.2.1⟩

/-- C6: in `compute_all_results` the exclusion set handed to the first
position is empty, the set handed to position k+1 is either the set handed
to position k unchanged (no winner) or that set extended by exactly the one
id of position k's winner — so it only ever grows, is a superset of its
predecessor, differs from it by at most one element, and never contains the
winner of the position it is handed to before that position is resolved. -/
theorem C6_exclusion_monotone (st : State) (k : Nat) (pd : Position) :
    (positionsByRank st ≠ [] →
      (exclSeq st (positionsByRank st) []).getD 0 [] = []) ∧
    (k + 1 < (positionsByRank st).length →
      ((exclSeq st (positionsByRank st) []).getD (k + 1) [] =
          (exclSeq st (positionsByRank st) []).getD k [] ∨
        ∃ w, (compute_position_winner st
            ((positionsByRank st).getD k pd).position_code
            ((exclSeq st (positionsByRank st) []).getD k [])).winner = some w ∧
          (exclSeq st (positionsByRank st) []).getD (k + 1) [] =
            (exclSeq st (positionsByRank st) []).getD k [] ++ [w.id] ∧
          w.id ∉ (exclSeq st (positionsByRank st) []).getD k [])) := by
  constructor
  · intro hne
    cases hps : positionsByRank st with
    | nil => exact absurd hps hne
    | cons p ps => rfl
  · intro hk
    rw [exclSeq_getD_succ st (positionsByRank st) [] k pd hk]
    unfold exclStep
    cases hw : (compute_position_winner st
        ((positionsByRank st).getD k pd).position_code
        ((exclSeq st (positionsByRank st) []).getD k [])).winner with
    | none =>
      simp only [hw]
      exact Or.inl trivial
    | some w =>
      simp only [hw]
      exact Or.inr ⟨w, rfl, rfl, winner_not_excluded hw⟩

/-- C6 witness: with two positions, the exclusion set handed to the second
position extends the empty one by exactly the first position's winner. -/
theorem C6_exclusion_monotone_witness :
    (exclSeq stTwo (positionsByRank stTwo) []).getD 1 [] =
        (exclSeq stTwo (positionsByRank stTwo) []).getD 0 [] ∨
      ∃ w, (compute_position_winner stTwo
          ((positionsByRank stTwo).getD 0
            { position_code := "", position_name := "", rank_order := 0 }).position_code
          ((exclSeq stTwo (positionsByRank stTwo) []).getD 0 [])).winner = some w ∧
        (exclSeq stTwo (positionsByRank stTwo) []).getD 1 [] =
          (exclSeq stTwo (positionsByRank stTwo) []).getD 0 [] ++ [w.id] ∧
        w.id ∉ (exclSeq stTwo (positionsByRank stTwo) []).getD 0 [] :=
  (C6_exclusion_monotone stTwo 0
    { position_code := "", position_name := "", rank_order := 0 }).2 (by decide)

/-- C7: `compute_all_results` is deterministic — it is a pure function of
the candidate, ranked-vote and position tables, so two runs on states with
unchanged ballot, position and candidate data produce identical TallyResult
sequences, including the relative order of equal-vote candidates and the
winner of every position. -/
theorem C7_deterministic (st1 st2 : State)
    (h1 : st1.candidates = st2.candidates)
    (h2 : st1.rankedVotes = st2.rankedVotes)
    (h3 : st1.positions = st2.positions) :
    compute_all_results st1 = compute_all_results st2 :=
  compute_all_results_congr h1 h2 h3

/-- C7 witness: two states with the same tables but different stored winners
produce identical results. -/
theorem C7_deterministic_witness :
    compute_all_results stDemo = compute_all_results stDemoSaved :=
  C7_deterministic stDemo stDemoSaved rfl rfl rfl

/-- C8 counterexample: saving an orchestrator output holding one position
whose result has no winner stores no row at all — the persisted store does
not contain one entry per position of the output. -/
theorem C8_counterexample :
    (save_election_winners stDemo [tallyNoWinner]).election_winners = [] ∧
    ([tallyNoWinner] : List TallyResult).length = 1 := by
  decide

/-- C8 (amended): a save replaces the prior snapshot wholesale — the stored
rows depend only on the saved results, with exactly one row per result that
has a winner (a no-winner position stores no row), keyed by position code;
`get_election_winners` returns rows derived only from the current store
joined to the positions table, in ascending priority-rank order, and returns
empty when nothing is stored. -/
theorem C8_persistence (st st' : State) (results : List TallyResult) :
    ((save_election_winners st results).election_winners =
      (save_election_winners st' results).election_winners) ∧
    ((save_election_winners st results).election_winners.length =
      (results.filter (fun r => r.winner.isSome)).length) ∧
    ((save_election_winners st results).election_winners.map
        (fun row => row.position_code) =
      (results.filter (fun r => r.winner.isSome)).map (fun r => r.position_code)) ∧
    (st.election_winners = [] → get_election_winners st = []) ∧
    ((get_election_winners st).Pairwise (fun a b => a.rank_order ≤ b.rank_order)) ∧
    (∀ v ∈ get_election_winners st, ∃ ew ∈ st.election_winners,
      ∃ p ∈ st.positions, p.position_code = ew.position_code ∧
      v = { position_code := ew.position_code, candidate_id := ew.candidate_id,
            candidate_name := ew.candidate_name, vote_count := ew.vote_count,
            position_name := p.position_name, rank_order := p.rank_order }) :=
  ⟨rfl, winnerRowsOf_length results, winnerRowsOf_codes results,
   get_election_winners_empty st, get_election_winners_sorted st,
   fun _ hv => mem_get_election_winners hv⟩

/-- C8 witness: with an empty winners store, `get_election_winners` returns
the empty list. -/
theorem C8_persistence_witness : get_election_winners stNoBallots = [] :=
  (C8_persistence stNoBallots stDemo []).2.2.2.1 rfl

/-- C9: Scenario C — candidates {X=1, Y=2}, X already excluded, a single
ballot ranking only X: the ballot is exhausted (total_voters 1,
exhausted_votes 1), Y is listed with 0 votes, and the winner is Y; without Y
in the candidate set the winner is none. -/
theorem C9_scenario_exhaustion :
    (compute_position_winner stScenC "GS" [1]).total_voters = 1 ∧
    (compute_position_winner stScenC "GS" [1]).exhausted_votes = 1 ∧
    (∃ r ∈ (compute_position_winner stScenC "GS" [1]).results,
      r.id = 2 ∧ r.votes = 0) ∧
    (compute_position_winner stScenC "GS" [1]).winner =
      some { id := 2, name := "Y", votes := 0 } ∧
    (compute_position_winner stScenC2 "GS" [1]).winner = none := by
  decide

/-- C10: `record_ranked_votes` fails and leaves the store untouched when the
voter already has a ballot for the position or some submitted id is not a
candidate of the position (every failure returns the state unchanged — no
partial ballot is committed); on success it appends exactly the submitted
ids with consecutive preference ranks 1..n in the given order, and it
preserves the invariant that each (voter, position) pair has at most one
recorded ballot. -/
theorem C10_record_atomic (st : State) (v pos : String) (ids : List Nat) :
    ((record_ranked_votes st v pos ids).2.1 = false →
      (record_ranked_votes st v pos ids).1 = st) ∧
    (st.rankedVotes.any (fun r => decide (r.voter = v ∧ r.position = pos)) = true →
      (record_ranked_votes st v pos ids).2.1 = false) ∧
    (∀ cid ∈ ids, (∀ c ∈ st.candidates, ¬ (c.id = cid ∧ c.category = pos)) →
      (record_ranked_votes st v pos ids).2.1 = false) ∧
    ((record_ranked_votes st v pos ids).2.1 = true →
      (record_ranked_votes st v pos ids).1.rankedVotes =
        st.rankedVotes ++ ballotRows v pos 1 ids ∧
      (ballotRows v pos 1 ids).map (fun r => r.candidate) = ids ∧
      (ballotRows v pos 1 ids).map (fun r => r.rank) = List.range' 1 ids.length) ∧
    (oneBallotInv st → oneBallotInv (record_ranked_votes st v pos ids).1) :=
  ⟨record_fail_unchanged st v pos ids,
   record_already_voted st v pos ids,
   fun cid hmem hinv => record_invalid_candidate st v pos ids cid hmem hinv,
   fun h => ⟨record_success_rankedVotes st v pos ids h,
     ballotRows_map_candidate v pos 1 ids, ballotRows_map_rank v pos 1 ids⟩,
   record_preserves_oneBallotInv st v pos ids⟩

/-- C10 witness: a fresh voter's ballot [2, 1] for VP is appended with ranks
1 and 2, and a duplicate submission by voter "a" fails. -/
theorem C10_record_atomic_witness :
    ((record_ranked_votes stDemo "d" "VP" [2, 1]).1.rankedVotes =
      stDemo.rankedVotes ++ ballotRows "d" "VP" 1 [2, 1] ∧
     (ballotRows "d" "VP" 1 [2, 1]).map (fun r => r.candidate) = [2, 1] ∧
     (ballotRows "d" "VP" 1 [2, 1]).map (fun r => r.rank) = List.range' 1 2) ∧
    (record_ranked_votes stDemo "a" "VP" [1]).2.1 = false :=
  ⟨(C10_record_atomic stDemo "d" "VP" [2, 1]).2.2.2.1 (by decide),
   (C10_record_atomic stDemo "a" "VP" [1]).2.1 (by decide)⟩
